import Mathlib

/-!
Verification of the El Farol bar simulation core
(`el_farol_sim/src/simulation_logic/{policy,agent,game,simulation}.rs`).

The Rust code is shallowly embedded: `f64` values become `ℝ`, vectors become
lists, the 2-D `ndarray::Array2<Agent>` grid becomes a function
`ℕ → ℕ → Agent` together with the grid side length, and every call that can
panic in Rust is `Option`-valued (`none` models a panic).  Thread-local
randomness is made explicit: every random draw the code makes is an input of
the embedded function (an `f64` drawn by `rng.gen::<f64>()` becomes a real
number that the rng contract keeps in `[0,1)`, a uniform index draw becomes a
natural number reduced modulo the slice length).
-/

noncomputable section

open scoped Classical

/-- The `Policy` trait of `policy.rs`: a display name plus a decision rule
mapping an attendance-ratio history to a prediction.  Randomized policies are
embedded per fixed draw, i.e. as the deterministic function the trait object
realizes once its draws are fixed. -/
structure Policy where
  name : String
  decide : List ℝ → ℝ

instance : Inhabited Policy := ⟨⟨"", fun _ => 0⟩⟩

/-- `AlwaysGo` (`policy.rs` line 18): constant prediction `0.0`. -/
def AlwaysGo : Policy := ⟨"Always Go", fun _ => 0⟩

/-- `NeverGo` (`policy.rs` line 32): constant prediction `1.0`. -/
def NeverGo : Policy := ⟨"Never Go", fun _ => 1⟩

/-- `MovingAveragePolicy::<WINDOW_SIZE>::decide` (`policy.rs` lines 92-107):
mean of the last `WINDOW_SIZE` history entries, `0.0` on empty history or a
zero window.  `saturating_sub` is `Nat` subtraction. -/
def movingAverageDecide (WINDOW_SIZE : ℕ) (history : List ℝ) : ℝ :=
  if history.isEmpty || WINDOW_SIZE == 0 then 0
  else
    let start := history.length - WINDOW_SIZE
    let relevant_history := history.drop start
    if relevant_history.isEmpty then 0
    else relevant_history.sum / (relevant_history.length : ℝ)

/-- The `MovingAveragePolicy<WINDOW_SIZE>` trait object. -/
def MovingAveragePolicy (WINDOW_SIZE : ℕ) : Policy :=
  ⟨"Moving Average (" ++ toString WINDOW_SIZE ++ ")", movingAverageDecide WINDOW_SIZE⟩

/-- `GeneralizedMeanPolicy::<M>::decide` (`policy.rs` lines 404-421):
`(mean of b^r over the last min(len, M) entries)^(1/r)`, `0.0` on empty
history or an empty window.  `f64::powf` is `Real.rpow`. -/
def generalizedMeanDecide (M : ℕ) (r : ℝ) (history : List ℝ) : ℝ :=
  if history.isEmpty then 0
  else
    let n := history.length
    let window_size := min n M
    let window := history.drop (n - window_size)
    if window.isEmpty then 0
    else
      let sum_of_powers : ℝ := (window.map (fun b => b ^ r)).sum
      let mean_of_powers := sum_of_powers / (window_size : ℝ)
      mean_of_powers ^ ((1 : ℝ) / r)

/-- The `GeneralizedMeanPolicy<M>` trait object (its `new` asserts `r ≠ 0`). -/
def GeneralizedMeanPolicy (M : ℕ) (r : ℝ) : Policy :=
  ⟨"Generalized Mean (m=" ++ toString M ++ ")", generalizedMeanDecide M r⟩

/-- The window of the last `min (history.length) M` entries that
`GeneralizedMeanPolicy::<M>` averages over. -/
def lastWindow (M : ℕ) (history : List ℝ) : List ℝ :=
  history.drop (history.length - min history.length M)

/-- Modelled from the spec: the harmonic mean of a list,
`length / (sum of entrywise inverses)` — the value the spec says
`GeneralizedMean(window, r=-1)` computes on strictly positive history. -/
def harmonicMean (l : List ℝ) : ℝ :=
  (l.length : ℝ) / (l.map fun x => x⁻¹).sum

/-- `rand::distributions::Uniform::new(low, high)` for `f64`: builds the
half-open sampler on `[low, high)` and panics (here `none`) unless
`low < high`. -/
def randUniformNew (low high : ℝ) : Option (ℝ × ℝ) :=
  if low < high then some (low, high) else none

/-- Sampling the half-open uniform sampler: the rng draw `u` lies in `[0,1)`
and the sample is `low + u * (high - low)`. -/
def randUniformSample (d : ℝ × ℝ) (u : ℝ) : ℝ :=
  d.1 + u * (d.2 - d.1)

/-- `UniformPolicy` data (`policy.rs` lines 211-214). -/
structure UniformPolicyS where
  low : ℝ
  high : ℝ

/-- `UniformPolicy::new` (`policy.rs` lines 217-220): asserts
`low ≤ high ∧ low ∈ [0,1] ∧ high ∈ [0,1]` (panic, i.e. `none`, otherwise). -/
def UniformPolicyS.new (low high : ℝ) : Option UniformPolicyS :=
  if low ≤ high ∧ (0 ≤ low ∧ low ≤ 1) ∧ (0 ≤ high ∧ high ≤ 1) then
    some ⟨low, high⟩
  else none

/-- `UniformPolicy::decide` (`policy.rs` lines 224-228): builds
`Uniform::new(low, high)` and samples it; `none` is the panic inside
`Uniform::new`. -/
def uniformPolicyDecide (p : UniformPolicyS) (u : ℝ) : Option ℝ :=
  (randUniformNew p.low p.high).map fun d => randUniformSample d u

/-- The `Agent` struct of `agent.rs` (lines 10-14): a current policy
(`Arc<dyn Policy>` becomes a plain value, sharing being irrelevant to the
claims), the rolling record of absolute prediction errors, and the last
prediction made. -/
structure Agent where
  current_policy : Policy
  performance_history : List ℝ
  last_prediction : Option ℝ

instance : Inhabited Agent := ⟨⟨default, [], none⟩⟩

/-- `Agent::new` (`agent.rs` lines 17-23). -/
def Agent.new (initial_policy : Policy) : Agent :=
  ⟨initial_policy, [], none⟩

/-- `Agent::update_performance` (`agent.rs` lines 25-32): appends the
absolute prediction error, and panics (`none`) when no prediction was
recorded. -/
def Agent.update_performance (a : Agent) (actual_attendance_r : ℝ) : Option Agent :=
  match a.last_prediction with
  | some prediction =>
      some { a with
        performance_history :=
          a.performance_history ++ [|prediction - actual_attendance_r|] }
  | none => none

/-- `Agent::performance` (`agent.rs` lines 34-42): neutral `0` on an empty
record, otherwise `(max (1 - avg_error) 0) * 100`. -/
def Agent.performance (a : Agent) : ℝ :=
  if a.performance_history.isEmpty then 0
  else
    let avg_error := a.performance_history.sum / (a.performance_history.length : ℝ)
    max (1 - avg_error) 0 * 100

/-- `Agent::clear_performance_history` (`agent.rs` lines 122-124). -/
def Agent.clear_performance_history (a : Agent) : Agent :=
  { a with performance_history := [] }

/-- The random draws one call to `Agent::adapt_strategy` can consume, made
explicit.  `retention` is `rng.gen::<f64>()` (contract: in `[0,1)`);
`greedyIdx` and `fallbackIdx` drive `slice.choose` (uniform index draws,
reduced modulo the slice length); `softmaxU` is the `[0,1)` draw that
`WeightedIndex::sample` scales by the total weight; `uniformIdx` drives the
uniform fallback `Uniform::new(0, len)`. -/
structure AdaptDraws where
  retention : ℝ
  greedyIdx : ℕ
  fallbackIdx : ℕ
  softmaxU : ℝ
  uniformIdx : ℕ

/-- The rng contract for one `AdaptDraws` record: `gen::<f64>()`-style draws
lie in `[0,1)`. -/
def DrawsWF (d : AdaptDraws) : Prop :=
  0 ≤ d.retention ∧ d.retention < 1 ∧ 0 ≤ d.softmaxU ∧ d.softmaxU < 1

/-- One step of the fold `performances.iter().fold(f64::NEG_INFINITY, max)`:
`none` plays `-∞`, which `max` discards against any finite value. -/
def negInfMax (acc : Option ℝ) (b : ℝ) : Option ℝ :=
  match acc with
  | none => some b
  | some a => some (max a b)

/-- `performances.iter().fold(f64::NEG_INFINITY, |a, &b| a.max(b))`
(`agent.rs` lines 85 and 102). -/
def foldMaxNegInf (performances : List ℝ) : Option ℝ :=
  performances.foldl negInfMax none

/-- `best_indices` of `Agent::greedy_policy_selection` (`agent.rs` lines
87-90): the indices whose performance is within `1e-6` of the maximum
(`enumerate().filter().map(i)` phrased over the index range). -/
def bestIndices (performances : List ℝ) : List ℕ :=
  match foldMaxNegInf performances with
  | none => []
  | some max_perf =>
      (List.range performances.length).filter
        fun i => decide (|performances.getD i 0 - max_perf| < 1e-6)

/-- `slice.choose(rng)`: `none` on an empty slice, otherwise the element at
the uniform index draw `k` reduced modulo the length. -/
def chooseModel {α : Type} (l : List α) (k : ℕ) : Option α :=
  l.get? (k % l.length)

/-- `rand::distributions::WeightedIndex::new(&weights)` succeeds iff the
weight list is non-empty, has no negative entry, and has positive total. -/
def weightedIndexValid (weights : List ℝ) : Prop :=
  weights ≠ [] ∧ (∀ w ∈ weights, 0 ≤ w) ∧ 0 < weights.sum

/-- `WeightedIndex::sample`: walk the cumulative weights with a value `x`
drawn uniformly from `[0, total)`. -/
def weightedIndexSample : List ℝ → ℝ → ℕ
  | [], _ => 0
  | w :: ws, x => if x < w then 0 else weightedIndexSample ws (x - w) + 1

/-- `Agent::greedy_policy_selection` (`agent.rs` lines 84-99): choose
uniformly among the indices tied for maximum performance; the (unreachable
for non-empty input) fallback picks a random neighbor, whose `unwrap` panics
(`none`) on an empty slice. -/
def Agent.greedy_policy_selection (neighbors : List (Agent × ℝ))
    (performances : List ℝ) (d : AdaptDraws) : Option Policy :=
  match chooseModel (bestIndices performances) d.greedyIdx with
  | some chosen_index => (neighbors.get? chosen_index).map fun nb => nb.1.current_policy
  | none => (chooseModel neighbors d.fallbackIdx).map fun nb => nb.1.current_policy

/-- The `match WeightedIndex::new(&weights)` part of
`Agent::softmax_policy_selection` (`agent.rs` lines 108-119), with the
already computed weights as argument: on success sample the weighted index,
on failure fall back to `Uniform::new(0, neighbors.len())` (which panics,
i.e. `none`, on an empty neighbor slice). -/
def softmaxSelectionCore (neighbors : List (Agent × ℝ)) (weights : List ℝ)
    (d : AdaptDraws) : Option Policy :=
  if weightedIndexValid weights then
    (neighbors.get? (weightedIndexSample weights (d.softmaxU * weights.sum))).map
      fun nb => nb.1.current_policy
  else
    if neighbors.length = 0 then none
    else (neighbors.get? (d.uniformIdx % neighbors.length)).map
      fun nb => nb.1.current_policy

/-- The exponential weights of `Agent::softmax_policy_selection` (`agent.rs`
lines 102-106): `exp ((perf - max_perf) / temperature)`; the empty
performance list yields the empty weight list, as in the source. -/
def softmaxWeights (performances : List ℝ) (temperature : ℝ) : List ℝ :=
  match foldMaxNegInf performances with
  | none => []
  | some max_perf => performances.map fun perf => Real.exp ((perf - max_perf) / temperature)

/-- `Agent::softmax_policy_selection` (`agent.rs` lines 101-120). -/
def Agent.softmax_policy_selection (neighbors : List (Agent × ℝ))
    (performances : List ℝ) (temperature : ℝ) (d : AdaptDraws) : Option Policy :=
  softmaxSelectionCore neighbors (softmaxWeights performances temperature) d

/-- `Agent::choose_new_policy` (`agent.rs` lines 74-82). -/
def Agent.choose_new_policy (neighbors : List (Agent × ℝ)) (temperature : ℝ)
    (d : AdaptDraws) : Option Policy :=
  let performances := neighbors.map Prod.snd
  if temperature < 1e-6 then
    Agent.greedy_policy_selection neighbors performances d
  else
    Agent.softmax_policy_selection neighbors performances temperature d

/-- `Agent::adapt_strategy` (`agent.rs` lines 54-72): keep everything on an
empty neighbor slice or when the retention draw fires; otherwise adopt the
chosen policy, clearing the performance record only when the chosen policy's
name differs from the current one. -/
def Agent.adapt_strategy (a : Agent) (neighbors : List (Agent × ℝ))
    (temperature policy_retention_rate : ℝ) (d : AdaptDraws) : Option Agent :=
  if neighbors.isEmpty then some a
  else if d.retention < policy_retention_rate then some a
  else
    match Agent.choose_new_policy neighbors temperature d with
    | none => none
    | some new_policy =>
        if a.current_policy.name ≠ new_policy.name then
          some { a with current_policy := new_policy, performance_history := [] }
        else
          some { a with current_policy := new_policy }

/-- The `ndarray::Array2<Agent>` grid, as a function from coordinates; only
the cells with both coordinates below the side length are meaningful. -/
def Grid := ℕ → ℕ → Agent

/-- Write one grid cell. -/
def updateAt (g : Grid) (i j : ℕ) (a : Agent) : Grid :=
  fun x y => if x = i ∧ y = j then a else g x y

/-- The row-major cell enumeration `for i in 0..n { for j in 0..n }`. -/
def positions (n : ℕ) : List (ℕ × ℕ) :=
  List.product (List.range n) (List.range n)

/-- An `Option`-propagating left fold: the `for` loops whose body can panic. -/
def optFoldl {γ α : Type} (f : γ → α → Option γ) : γ → List α → Option γ
  | g, [] => some g
  | g, a :: l =>
      match f g a with
      | none => none
      | some g2 => optFoldl f g2 l

/-- The `Game` struct of `game.rs` (lines 4-7): the grid and the shared
attendance-ratio history. -/
structure GameState where
  grid : Grid
  history : List ℝ

/-- The first write loop of `Game::run` (`game.rs` lines 25-30): store each
pre-collected prediction into `last_prediction`. -/
def setPredictions (n : ℕ) (g : Grid) (preds : List ℝ) : Grid :=
  ((positions n).zip preds).foldl
    (fun acc pp =>
      updateAt acc pp.1.1 pp.1.2 { acc pp.1.1 pp.1.2 with last_prediction := some pp.2 })
    g

/-- The scoring loop of `Game::run` (`game.rs` lines 40-42):
`update_performance` on every agent, propagating its possible panic. -/
def scoreAll (n : ℕ) (r : ℝ) (g : Grid) : Option Grid :=
  optFoldl
    (fun acc p => ((acc p.1 p.2).update_performance r).map (updateAt acc p.1 p.2))
    g (positions n)

/-- `Game::run` (`game.rs` lines 17-47) on an `n × n` grid: collect the
predictions against the current history, count the predictions strictly
below `0.6`, form the attendance ratio (`0` on an empty grid), store each
prediction, score every agent against the ratio, and append the ratio to the
history.  Returns the new state paired with the returned ratio. -/
def gameRun (n : ℕ) (s : GameState) : Option (GameState × ℝ) :=
  let total_agents := n * n
  let predictions : List ℝ :=
    (positions n).map fun p => (s.grid p.1 p.2).current_policy.decide s.history
  let attendance := (predictions.filter fun x => decide (x < 0.6)).length
  let ratioVal : ℝ :=
    if 0 < total_agents then (attendance : ℝ) / (total_agents : ℝ) else 0
  (scoreAll n ratioVal (setPredictions n s.grid predictions)).map
    fun g2 => ({ grid := g2, history := s.history ++ [ratioVal] }, ratioVal)

/-- Modelled from the spec: the attendance ratio of one round — the count of
agents whose prediction is strictly below the capacity threshold `0.6`
divided by the total number of agents, `0` when the grid is empty. -/
def attendanceRatioSpec (n : ℕ) (s : GameState) : ℝ :=
  if n * n = 0 then 0
  else
    (((positions n).filter fun p =>
        decide ((s.grid p.1 p.2).current_policy.decide s.history < 0.6)).length : ℝ)
      / ((n * n : ℕ) : ℝ)

/-- The `for _round in 0..rounds` loop of `Simulation::run_iteration`
(`simulation.rs` lines 143-145). -/
def gameRunN (n : ℕ) : ℕ → GameState → Option GameState
  | 0, s => some s
  | k + 1, s => (gameRun n s).bind fun sr => gameRunN n k sr.1

/-- The list of integers from `lo` to `hi` inclusive (`lo..=hi`), empty when
`hi < lo`. -/
def intRange (lo hi : ℤ) : List ℤ :=
  (List.range (hi + 1 - lo).toNat).map fun k => lo + (k : ℤ)

/-- The neighbor gathering of `Simulation::adapt_strategies`
(`simulation.rs` lines 173-191): every cell of the clipped box around
`(i, j)` whose Manhattan distance is at most `neighbor_distance`, paired
with its `performance()`, read from the pre-adaptation grid. -/
def neighborsOf (n neighbor_distance : ℕ) (g : Grid) (i j : ℕ) : List (Agent × ℝ) :=
  let nd : ℤ := (neighbor_distance : ℤ)
  (intRange (max ((i : ℤ) - nd) 0) (min ((i : ℤ) + nd) ((n : ℤ) - 1))).flatMap fun ni =>
    (intRange (max ((j : ℤ) - nd) 0) (min ((j : ℤ) + nd) ((n : ℤ) - 1))).filterMap fun nj =>
      if ((i : ℤ) - ni).natAbs + ((j : ℤ) - nj).natAbs ≤ neighbor_distance then
        some (g ni.toNat nj.toNat, (g ni.toNat nj.toNat).performance)
      else none

/-- One cell of the adaptation loop of `Simulation::adapt_strategies`
(`simulation.rs` lines 171-196): adapt the threaded new grid's cell against
the neighbors read from the pre-adaptation grid. -/
def adaptStep (n nd : ℕ) (T rate : ℝ) (old : Grid) (draws : ℕ → ℕ → AdaptDraws)
    (acc : Grid) (p : ℕ × ℕ) : Option Grid :=
  ((acc p.1 p.2).adapt_strategy (neighborsOf n nd old p.1 p.2) T rate (draws p.1 p.2)).map
    (updateAt acc p.1 p.2)

/-- The adaptation double loop, processing the cells of `order`, starting
from the clone of the pre-adaptation grid. -/
def adaptPass (n nd : ℕ) (T rate : ℝ) (old : Grid) (draws : ℕ → ℕ → AdaptDraws)
    (order : List (ℕ × ℕ)) : Option Grid :=
  optFoldl (adaptStep n nd T rate old draws) old order

/-- The clearing loop of `Simulation::adapt_strategies` (`simulation.rs`
lines 199-203): clear every cell's performance record. -/
def clearPass (n : ℕ) (g : Grid) : Grid :=
  (positions n).foldl
    (fun acc p => updateAt acc p.1 p.2 (acc p.1 p.2).clear_performance_history) g

/-- `Simulation::adapt_strategies` (`simulation.rs` lines 165-207): the
row-major adaptation pass followed by the clearing pass. -/
def adaptStrategies (n nd : ℕ) (T rate : ℝ) (draws : ℕ → ℕ → AdaptDraws)
    (g : Grid) : Option Grid :=
  (adaptPass n nd T rate g draws (positions n)).map (clearPass n)

/-- The simulation configuration (`simulation.rs` lines 11-22), restricted
to the fields the core logic reads. -/
structure SimConfig where
  grid_size : ℕ
  neighbor_distance : ℕ
  temperature : ℝ
  policy_retention_rate : ℝ
  rounds_per_update : ℕ
  initial_strategies : List Policy
  start_random : Bool

/-- The `strategy_map` lookup (`simulation.rs` lines 40-45 and 152):
`HashMap` collected from the enumerated strategy list (a later duplicate
name overwrites an earlier one), queried by policy name. -/
def strategyId (strategies : List Policy) (nm : String) : Option ℕ :=
  (strategies.enum.reverse.find? fun ip => ip.2.name == nm).map Prod.fst

/-- The per-iteration `Frame` (`lib.rs` lines 23-27), its grids flattened in
row-major order. -/
structure Frame where
  policy_ids : List ℕ
  predictions : List ℝ
  attendance : ℝ

/-- An `Option`-propagating map: a `mapv` whose body can panic. -/
def mapOpt {α β : Type} (f : α → Option β) : List α → Option (List β)
  | [] => some []
  | a :: l => (f a).bind fun b => (mapOpt f l).map fun bs => b :: bs

/-- The `Frame` construction of `Simulation::run_iteration` (`simulation.rs`
lines 149-162): the strategy-map lookup is `unwrap`ped (`none` on failure),
missing predictions default to `0.0`, and the attendance ratio is the last
history entry (default `0.0`). -/
def frameOf (cfg : SimConfig) (s : GameState) : Option Frame :=
  ((mapOpt (fun p =>
      strategyId cfg.initial_strategies (s.grid p.1 p.2).current_policy.name)
      (positions cfg.grid_size))).map
    fun ids =>
      { policy_ids := ids
        predictions := (positions cfg.grid_size).map fun p => (s.grid p.1 p.2).last_prediction.getD 0
        attendance := s.history.getLast?.getD 0 }

/-- `Simulation::run_iteration` (`simulation.rs` lines 142-163): run
`rounds_per_update` games, adapt the strategies, and emit the frame. -/
def runIteration (cfg : SimConfig) (draws : ℕ → ℕ → AdaptDraws)
    (s : GameState) : Option (GameState × Frame) :=
  (gameRunN cfg.grid_size cfg.rounds_per_update s).bind fun s1 =>
    (adaptStrategies cfg.grid_size cfg.neighbor_distance cfg.temperature
        cfg.policy_retention_rate draws s1.grid).bind fun g2 =>
      let s2 : GameState := { grid := g2, history := s1.history }
      (frameOf cfg s2).map fun fr => (s2, fr)

/-- Iterated `run_iteration`, with a fresh family of draws per iteration. -/
def runIterations (cfg : SimConfig) (drawSeq : ℕ → ℕ → ℕ → AdaptDraws) :
    ℕ → GameState → Option GameState
  | 0, s => some s
  | k + 1, s =>
      (runIteration cfg (drawSeq 0) s).bind fun sf =>
        runIterations cfg (fun t => drawSeq (t + 1)) k sf.1

/-- The base policy of the non-random setup (`simulation.rs` lines 63-77):
the configured policy named "Never Go", else the first configured policy
(the `unwrap_or_else` fallback; its inner empty-list panic is unreachable
because `Simulation::new` has already rejected an empty strategy list). -/
def basePolicyOf (strategies : List Policy) : Policy :=
  (strategies.find? fun p => p.name == "Never Go").getD (strategies.getD 0 default)

/-- The non-base policies of the non-random setup (`simulation.rs` lines
79-84). -/
def otherPoliciesOf (strategies : List Policy) : List Policy :=
  strategies.filter fun p => ¬ p.name == (basePolicyOf strategies).name

/-- The corner-exception grid of the non-random setup (`simulation.rs` lines
86-127): every cell holds the base policy; when non-base policies exist, the
top-left corner (for `gs > 0`) and, for `gs > 1`, the three remaining
corners are overwritten with `other[k % other.len()]` for `k = 0..3`. -/
def cornersGrid (strategies : List Policy) (gs : ℕ) : Grid :=
  let base := fun (_ : ℕ) (_ : ℕ) => Agent.new (basePolicyOf strategies)
  let other := otherPoliciesOf strategies
  if other.isEmpty then base
  else if 0 < gs then
    if 1 < gs then
      updateAt
        (updateAt
          (updateAt
            (updateAt base 0 0 (Agent.new (other.getD (0 % other.length) default)))
            0 (gs - 1) (Agent.new (other.getD (1 % other.length) default)))
          (gs - 1) 0 (Agent.new (other.getD (2 % other.length) default)))
        (gs - 1) (gs - 1) (Agent.new (other.getD (3 % other.length) default))
    else
      updateAt base 0 0 (Agent.new (other.getD (0 % other.length) default))
  else base

/-- `Simulation::new` (`simulation.rs` lines 32-140): panic (`none`) on an
empty strategy list; in random mode fill every cell with the strategy at a
per-cell uniform index draw; otherwise use the base-with-corners grid.  The
game starts with an empty history. -/
def Simulation.new (cfg : SimConfig) (initDraws : ℕ → ℕ → ℕ) : Option GameState :=
  if cfg.initial_strategies.isEmpty then none
  else if cfg.start_random then
    some
      { grid := fun i j =>
          Agent.new (cfg.initial_strategies.getD
            (initDraws i j % cfg.initial_strategies.length) default)
        history := [] }
  else
    some { grid := cornersGrid cfg.initial_strategies cfg.grid_size, history := [] }

/-- An agent whose policy name occurs among the configured strategies. -/
def policyFromConfigured (cfg : SimConfig) (a : Agent) : Prop :=
  ∃ p ∈ cfg.initial_strategies, a.current_policy.name = p.name

/-- Every cell of the grid carries a configured policy name. -/
def GridInv (cfg : SimConfig) (s : GameState) : Prop :=
  ∀ i j, policyFromConfigured cfg (s.grid i j)

/-- The states a simulation can be in: an initial state produced by
`Simulation::new`, or the result of one more `run_iteration` under draws
that respect the rng contract. -/
inductive Reachable (cfg : SimConfig) : GameState → Prop
  | init (initDraws : ℕ → ℕ → ℕ) (s : GameState)
      (h : Simulation.new cfg initDraws = some s) : Reachable cfg s
  | step (s s' : GameState) (fr : Frame) (draws : ℕ → ℕ → AdaptDraws)
      (hwf : ∀ i j, DrawsWF (draws i j)) (hs : Reachable cfg s)
      (h : runIteration cfg draws s = some (s', fr)) : Reachable cfg s'

/-- The result of adapting one cell against the pre-adaptation snapshot:
what the cell becomes, as a function of the old grid and that cell's own
draws only. -/
def adaptedCell (n nd : ℕ) (T rate : ℝ) (old : Grid) (draws : ℕ → ℕ → AdaptDraws)
    (i j : ℕ) : Agent :=
  ((old i j).adapt_strategy (neighborsOf n nd old i j) T rate (draws i j)).getD (old i j)

/-- The prediction the cell `(i, j)` makes against the current history. -/
def predOf (s : GameState) (i j : ℕ) : ℝ :=
  (s.grid i j).current_policy.decide s.history

/-- The ratio value `Game::run` computes and returns. -/
def gameRatio (n : ℕ) (s : GameState) : ℝ :=
  if 0 < n * n then
    (((((positions n).map fun p => predOf s p.1 p.2)).filter
        fun x => decide (x < 0.6)).length : ℝ) / ((n * n : ℕ) : ℝ)
  else 0

/-- A fixed draw record used by the concrete check instances below. -/
def someDraws : AdaptDraws := ⟨1 / 2, 0, 0, 1 / 2, 0⟩

/-- A concrete agent holding a non-empty performance record. -/
def cexAgent : Agent := ⟨AlwaysGo, [1], none⟩

/-- A one-element neighbor slice whose policy has the same name as
`cexAgent`'s current policy. -/
def cexNeighbors : List (Agent × ℝ) := [(cexAgent, 0)]

/-- A one-element neighbor slice with a differently named policy. -/
def altNeighbors : List (Agent × ℝ) := [(Agent.new NeverGo, 0)]

/-- A minimal configuration used by the concrete check instances: an empty
grid, one round per update, one configured strategy, random start. -/
def cfg0 : SimConfig :=
  { grid_size := 0
    neighbor_distance := 0
    temperature := 1
    policy_retention_rate := 1
    rounds_per_update := 1
    initial_strategies := [AlwaysGo]
    start_random := true }

/-- The initial state `Simulation::new cfg0` produces. -/
def state0 : GameState :=
  { grid := fun _ _ =>
      Agent.new (cfg0.initial_strategies.getD (0 % cfg0.initial_strategies.length) default)
    history := [] }

/-! ## Helper lemmas -/

theorem rpow_negone (x : ℝ) : x ^ (-1 : ℝ) = x⁻¹ := by
  rw [show (-1 : ℝ) = ((-1 : ℤ) : ℝ) by norm_num, Real.rpow_intCast, zpow_neg_one]

theorem updateAt_eval (g : Grid) (a b : ℕ) (v : Agent) (x y : ℕ) :
    updateAt g a b v x y = if x = a ∧ y = b then v else g x y := rfl

theorem updateAt_self (g : Grid) (a b : ℕ) (v : Agent) :
    updateAt g a b v a b = v := by
  rw [updateAt_eval, if_pos ⟨rfl, rfl⟩]

theorem updateAt_other (g : Grid) (a b : ℕ) (v : Agent) (x y : ℕ)
    (h : ¬ (x = a ∧ y = b)) : updateAt g a b v x y = g x y := by
  rw [updateAt_eval, if_neg h]

theorem mem_positions (n : ℕ) (p : ℕ × ℕ) :
    p ∈ positions n ↔ p.1 < n ∧ p.2 < n := by
  obtain ⟨i, j⟩ := p
  rw [positions]
  constructor
  · intro h
    obtain ⟨h1, h2⟩ := List.mem_product.mp h
    exact ⟨List.mem_range.mp h1, List.mem_range.mp h2⟩
  · intro hij
    exact List.mem_product.mpr
      ⟨List.mem_range.mpr hij.1, List.mem_range.mpr hij.2⟩

theorem nodup_positions (n : ℕ) : (positions n).Nodup :=
  List.Nodup.product (List.nodup_range n) (List.nodup_range n)

theorem length_positions (n : ℕ) : (positions n).length = n * n := by
  rw [positions]
  simpa using List.length_product (List.range n) (List.range n)

theorem prod_ne_of_not_and {i j qi qj : ℕ} (h : ¬ (i = qi ∧ j = qj)) :
    (i, j) ≠ (qi, qj) := by
  simpa [Prod.ext_iff] using h

theorem zip_self_map {α β : Type} (f : α → β) :
    ∀ l : List α, l.zip (l.map f) = l.map fun a => (a, f a)
  | [] => rfl
  | a :: l => by
      rw [List.map_cons, List.zip_cons_cons, zip_self_map f l, List.map_cons]

theorem foldl_updateAt_eval (f : (ℕ × ℕ) → Agent → Agent) (L : List (ℕ × ℕ)) :
    L.Nodup → ∀ (g : Grid) (i j : ℕ),
      (L.foldl (fun acc q => updateAt acc q.1 q.2 (f q (acc q.1 q.2))) g) i j
        = if (i, j) ∈ L then f (i, j) (g i j) else g i j := by
  induction L with
  | nil => intro _ g i j; simp
  | cons q t ih =>
    intro hnd g i j
    obtain ⟨hq, hnd'⟩ := List.nodup_cons.mp hnd
    rw [List.foldl_cons, ih hnd' _ i j]
    obtain ⟨qi, qj⟩ := q
    by_cases hij : i = qi ∧ j = qj
    · obtain ⟨h1, h2⟩ := hij
      subst h1; subst h2
      rw [if_neg (fun hmem => hq hmem), if_pos (List.mem_cons_self _ _), updateAt_self]
    · rw [updateAt_other _ _ _ _ _ _ hij]
      by_cases hmem : (i, j) ∈ t
      · rw [if_pos hmem, if_pos (List.mem_cons_of_mem _ hmem)]
      · rw [if_neg hmem, if_neg ?_]
        intro hc
        rcases List.mem_cons.mp hc with hc1 | hc1
        · exact prod_ne_of_not_and hij hc1
        · exact hmem hc1

theorem optFoldl_updateAt_eval (h : (ℕ × ℕ) → Agent → Option Agent) (L : List (ℕ × ℕ)) :
    L.Nodup → ∀ g : Grid, (∀ q ∈ L, (h q (g q.1 q.2)).isSome) →
    ∃ g', optFoldl (fun acc q => (h q (acc q.1 q.2)).map (updateAt acc q.1 q.2)) g L = some g'
      ∧ ∀ i j, g' i j =
          if (i, j) ∈ L then (h (i, j) (g i j)).getD (g i j) else g i j := by
  induction L with
  | nil => intro _ g _; exact ⟨g, rfl, by simp⟩
  | cons q t ih =>
    intro hnd g hsome
    obtain ⟨hq, hnd'⟩ := List.nodup_cons.mp hnd
    obtain ⟨a, ha⟩ := Option.isSome_iff_exists.mp (hsome q (List.mem_cons_self q t))
    have hsome' : ∀ p ∈ t, (h p ((updateAt g q.1 q.2 a) p.1 p.2)).isSome := by
      intro p hp
      have hpq : ¬ (p.1 = q.1 ∧ p.2 = q.2) := by
        intro hc
        have : p = q := by
          obtain ⟨pi, pj⟩ := p; obtain ⟨qi, qj⟩ := q
          simpa [Prod.ext_iff] using hc
        exact hq (this ▸ hp)
      rw [updateAt_other _ _ _ _ _ _ hpq]
      exact hsome p (List.mem_cons_of_mem q hp)
    obtain ⟨g', hfold, hval⟩ := ih hnd' (updateAt g q.1 q.2 a) hsome'
    refine ⟨g', ?_, ?_⟩
    · simp only [optFoldl, ha, Option.map_some']
      exact hfold
    · intro i j
      rw [hval i j]
      obtain ⟨qi, qj⟩ := q
      by_cases hij : i = qi ∧ j = qj
      · obtain ⟨h1, h2⟩ := hij
        subst h1; subst h2
        rw [if_neg (fun hmem => hq hmem), if_pos (List.mem_cons_self _ _), updateAt_self, ha]
        rfl
      · rw [updateAt_other _ _ _ _ _ _ hij]
        by_cases hmem : (i, j) ∈ t
        · rw [if_pos hmem, if_pos (List.mem_cons_of_mem _ hmem)]
        · rw [if_neg hmem, if_neg ?_]
          intro hc
          rcases List.mem_cons.mp hc with hc1 | hc1
          · exact prod_ne_of_not_and hij hc1
          · exact hmem hc1

theorem setPredictions_eval (n : ℕ) (s : GameState) (pf : ℕ × ℕ → ℝ) (i j : ℕ) :
    setPredictions n s.grid ((positions n).map pf) i j
      = if (i, j) ∈ positions n then
          { s.grid i j with last_prediction := some (pf (i, j)) }
        else s.grid i j := by
  rw [setPredictions, zip_self_map pf (positions n), List.foldl_map]
  exact foldl_updateAt_eval
    (fun q a => { a with last_prediction := some (pf q) })
    (positions n) (nodup_positions n) s.grid i j

theorem clearPass_eval (n : ℕ) (g : Grid) (i j : ℕ) :
    clearPass n g i j
      = if (i, j) ∈ positions n then (g i j).clear_performance_history else g i j := by
  rw [clearPass]
  exact foldl_updateAt_eval (fun _ a => a.clear_performance_history)
    (positions n) (nodup_positions n) g i j

theorem gameRun_eq (n : ℕ) (s : GameState) :
    ∃ g', gameRun n s
        = some ({ grid := g', history := s.history ++ [gameRatio n s] }, gameRatio n s)
      ∧ ∀ i j, g' i j =
          if i < n ∧ j < n then
            { s.grid i j with
                last_prediction := some (predOf s i j),
                performance_history :=
                  (s.grid i j).performance_history ++ [|predOf s i j - gameRatio n s|] }
          else s.grid i j := by
  have hrun : gameRun n s
      = (scoreAll n (gameRatio n s)
          (setPredictions n s.grid ((positions n).map fun p => predOf s p.1 p.2))).map
        fun g2 => ({ grid := g2, history := s.history ++ [gameRatio n s] }, gameRatio n s) := by
    rfl
  have hsome : ∀ q ∈ positions n,
      (((setPredictions n s.grid ((positions n).map fun p => predOf s p.1 p.2))
          q.1 q.2).update_performance (gameRatio n s)).isSome := by
    intro q hqmem
    have hsp := setPredictions_eval n s (fun p => predOf s p.1 p.2) q.1 q.2
    rw [if_pos hqmem] at hsp
    rw [hsp]
    simp [Agent.update_performance]
  obtain ⟨g', hfold, hval⟩ := optFoldl_updateAt_eval
    (fun _ a => a.update_performance (gameRatio n s)) (positions n) (nodup_positions n)
    (setPredictions n s.grid ((positions n).map fun p => predOf s p.1 p.2)) hsome
  refine ⟨g', ?_, ?_⟩
  · rw [hrun, scoreAll, hfold]
    rfl
  · intro i j
    rw [hval i j, setPredictions_eval n s (fun p => predOf s p.1 p.2) i j]
    by_cases hij : i < n ∧ j < n
    · have hmem : (i, j) ∈ positions n := (mem_positions n (i, j)).mpr hij
      rw [if_pos hmem, if_pos hmem, if_pos hij]
      simp [Agent.update_performance]
    · have hmem : (i, j) ∉ positions n := fun hc => hij ((mem_positions n (i, j)).mp hc)
      rw [if_neg hmem, if_neg hmem, if_neg hij]

theorem foldl_negInfMax_some (l : List ℝ) : ∀ a : ℝ,
    ∃ m, l.foldl negInfMax (some a) = some m ∧ (m = a ∨ m ∈ l) ∧ a ≤ m ∧ ∀ x ∈ l, x ≤ m := by
  induction l with
  | nil => intro a; exact ⟨a, rfl, Or.inl rfl, le_refl a, by simp⟩
  | cons b t ih =>
    intro a
    obtain ⟨m, hm, hmem, hle, hall⟩ := ih (max a b)
    refine ⟨m, ?_, ?_, ?_, ?_⟩
    · rw [List.foldl_cons]; exact hm
    · rcases hmem with h | h
      · rcases le_total a b with hab | hab
        · refine Or.inr ?_
          rw [h, max_eq_right hab]
          exact List.mem_cons_self b t
        · exact Or.inl (by rw [h, max_eq_left hab])
      · exact Or.inr (List.mem_cons_of_mem b h)
    · exact le_trans (le_max_left a b) hle
    · intro x hx
      rcases List.mem_cons.mp hx with rfl | hx'
      · exact le_trans (le_max_right a x) hle
      · exact hall x hx'

theorem foldMaxNegInf_spec (l : List ℝ) (h : l ≠ []) :
    ∃ m, foldMaxNegInf l = some m ∧ m ∈ l ∧ ∀ x ∈ l, x ≤ m := by
  match l, h with
  | x :: t, _ =>
    obtain ⟨m, hm, hmem, hle, hall⟩ := foldl_negInfMax_some t x
    refine ⟨m, ?_, ?_, ?_⟩
    · rw [foldMaxNegInf, List.foldl_cons]; exact hm
    · rcases hmem with h1 | h1
      · rw [h1]; exact List.mem_cons_self x t
      · exact List.mem_cons_of_mem x h1
    · intro y hy
      rcases List.mem_cons.mp hy with rfl | hy'
      · exact hle
      · exact hall y hy'

theorem bestIndices_lt (l : List ℝ) : ∀ i ∈ bestIndices l, i < l.length := by
  intro i hi
  rw [bestIndices] at hi
  cases hfm : foldMaxNegInf l with
  | none => rw [hfm] at hi; exact absurd hi (List.not_mem_nil i)
  | some m =>
      rw [hfm] at hi
      exact List.mem_range.mp (List.mem_filter.mp hi).1

theorem bestIndices_ne_nil (l : List ℝ) (h : l ≠ []) : bestIndices l ≠ [] := by
  obtain ⟨m, hm, hmem, -⟩ := foldMaxNegInf_spec l h
  rw [bestIndices, hm]
  obtain ⟨⟨k, hk⟩, hget⟩ := List.mem_iff_get.mp hmem
  intro hnil
  have hnil' : (List.range l.length).filter
      (fun i => decide (|l.getD i 0 - m| < 1e-6)) = [] := hnil
  have hkmem : k ∈ (List.range l.length).filter
      fun i => decide (|l.getD i 0 - m| < 1e-6) := by
    rw [List.mem_filter]
    refine ⟨List.mem_range.mpr hk, ?_⟩
    rw [List.getD_eq_getElem l 0 hk]
    have hlk : l[k] = m := hget
    rw [hlk]
    simp only [sub_self, abs_zero, decide_eq_true_eq]
    norm_num
  rw [hnil'] at hkmem
  exact absurd hkmem (List.not_mem_nil k)

theorem chooseModel_some {α : Type} (l : List α) (k : ℕ) (h : l ≠ []) :
    ∃ x, chooseModel l k = some x ∧ x ∈ l := by
  have hlen : 0 < l.length := List.length_pos.mpr h
  have hk := Nat.mod_lt k hlen
  rw [chooseModel, List.get?_eq_get hk]
  exact ⟨_, rfl, List.get_mem l _ hk⟩

theorem chooseModel_mem {α : Type} {l : List α} {k : ℕ} {x : α}
    (h : chooseModel l k = some x) : x ∈ l := by
  rw [chooseModel] at h
  exact List.get?_mem h

theorem greedy_some (neighbors : List (Agent × ℝ)) (performances : List ℝ) (d : AdaptDraws)
    (hlen : performances.length = neighbors.length) (hne : neighbors ≠ []) :
    ∃ pol, Agent.greedy_policy_selection neighbors performances d = some pol := by
  have hpne : performances ≠ [] := by
    intro h0
    rw [h0] at hlen
    exact hne (List.length_eq_zero.mp hlen.symm)
  obtain ⟨ci, hci, hcimem⟩ :=
    chooseModel_some (bestIndices performances) d.greedyIdx (bestIndices_ne_nil performances hpne)
  have hlt : ci < neighbors.length := hlen ▸ bestIndices_lt performances ci hcimem
  rw [Agent.greedy_policy_selection, hci]
  show ∃ pol, (neighbors.get? ci).map (fun nb => nb.1.current_policy) = some pol
  rw [List.get?_eq_get hlt]
  exact ⟨_, rfl⟩

theorem greedy_mem {neighbors : List (Agent × ℝ)} {performances : List ℝ} {d : AdaptDraws}
    {pol : Policy} (h : Agent.greedy_policy_selection neighbors performances d = some pol) :
    ∃ nb ∈ neighbors, pol = nb.1.current_policy := by
  rw [Agent.greedy_policy_selection] at h
  cases hc : chooseModel (bestIndices performances) d.greedyIdx with
  | some ci =>
      rw [hc] at h
      have h2 : (neighbors.get? ci).map (fun nb => nb.1.current_policy) = some pol := h
      obtain ⟨nb, hget, hpol⟩ := Option.map_eq_some'.mp h2
      exact ⟨nb, List.get?_mem hget, hpol.symm⟩
  | none =>
      rw [hc] at h
      have h2 : (chooseModel neighbors d.fallbackIdx).map
          (fun nb => nb.1.current_policy) = some pol := h
      obtain ⟨nb, hget, hpol⟩ := Option.map_eq_some'.mp h2
      exact ⟨nb, chooseModel_mem hget, hpol.symm⟩

theorem softmaxCore_mem {neighbors : List (Agent × ℝ)} {weights : List ℝ} {d : AdaptDraws}
    {pol : Policy} (h : softmaxSelectionCore neighbors weights d = some pol) :
    ∃ nb ∈ neighbors, pol = nb.1.current_policy := by
  rw [softmaxSelectionCore] at h
  by_cases h1 : weightedIndexValid weights
  · rw [if_pos h1] at h
    obtain ⟨nb, hget, hpol⟩ := Option.map_eq_some'.mp h
    exact ⟨nb, List.get?_mem hget, hpol.symm⟩
  · rw [if_neg h1] at h
    by_cases h2 : neighbors.length = 0
    · rw [if_pos h2] at h
      exact absurd h (by simp)
    · rw [if_neg h2] at h
      obtain ⟨nb, hget, hpol⟩ := Option.map_eq_some'.mp h
      exact ⟨nb, List.get?_mem hget, hpol.symm⟩

theorem softmaxWeights_length (performances : List ℝ) (T : ℝ) (h : performances ≠ []) :
    (softmaxWeights performances T).length = performances.length := by
  obtain ⟨m, hm, -, -⟩ := foldMaxNegInf_spec performances h
  rw [softmaxWeights, hm, List.length_map]

theorem softmaxWeights_valid (performances : List ℝ) (T : ℝ) (h : performances ≠ []) :
    weightedIndexValid (softmaxWeights performances T) := by
  obtain ⟨m, hm, -, -⟩ := foldMaxNegInf_spec performances h
  rw [softmaxWeights, hm]
  refine ⟨by simp [h], ?_, ?_⟩
  · intro w hw
    obtain ⟨p, -, hp⟩ := List.mem_map.mp hw
    rw [← hp]
    exact le_of_lt (Real.exp_pos _)
  · refine List.sum_pos _ ?_ (by simp [h])
    intro x hx
    obtain ⟨p, -, hp⟩ := List.mem_map.mp hx
    rw [← hp]
    exact Real.exp_pos _

theorem weightedIndexSample_lt : ∀ (ws : List ℝ) (x : ℝ), 0 ≤ x → x < ws.sum →
    weightedIndexSample ws x < ws.length := by
  intro ws
  induction ws with
  | nil => intro x h0 hlt; simp at hlt; linarith
  | cons w t ih =>
    intro x h0 hlt
    rw [weightedIndexSample]
    by_cases hx : x < w
    · rw [if_pos hx]; simp
    · rw [if_neg hx]
      have hrec := ih (x - w) (by linarith [not_lt.mp hx])
        (by rw [List.sum_cons] at hlt; linarith)
      simpa [List.length_cons] using Nat.succ_lt_succ hrec

theorem softmax_some (neighbors : List (Agent × ℝ)) (performances : List ℝ) (T : ℝ)
    (d : AdaptDraws) (hlen : performances.length = neighbors.length)
    (hne : neighbors ≠ []) (h0 : 0 ≤ d.softmaxU) (h1 : d.softmaxU < 1) :
    ∃ pol, Agent.softmax_policy_selection neighbors performances T d = some pol := by
  have hpne : performances ≠ [] := by
    intro hc
    rw [hc] at hlen
    exact hne (List.length_eq_zero.mp hlen.symm)
  have hvalid := softmaxWeights_valid performances T hpne
  obtain ⟨-, -, hsum⟩ := softmaxWeights_valid performances T hpne
  have hx : d.softmaxU * (softmaxWeights performances T).sum
      < (softmaxWeights performances T).sum := by
    have := mul_lt_mul_of_pos_right h1 hsum
    rwa [one_mul] at this
  have hidx := weightedIndexSample_lt (softmaxWeights performances T)
    (d.softmaxU * (softmaxWeights performances T).sum)
    (mul_nonneg h0 (le_of_lt hsum)) hx
  rw [softmaxWeights_length performances T hpne, hlen] at hidx
  rw [Agent.softmax_policy_selection, softmaxSelectionCore, if_pos hvalid,
    List.get?_eq_get hidx]
  exact ⟨_, rfl⟩

theorem choose_new_policy_some (neighbors : List (Agent × ℝ)) (T : ℝ) (d : AdaptDraws)
    (hne : neighbors ≠ []) (hwf : DrawsWF d) :
    ∃ pol, Agent.choose_new_policy neighbors T d = some pol := by
  obtain ⟨-, -, hu0, hu1⟩ := hwf
  have hlen : (neighbors.map Prod.snd).length = neighbors.length := List.length_map _ _
  rw [Agent.choose_new_policy]
  by_cases hT : T < 1e-6
  · rw [if_pos hT]
    exact greedy_some neighbors _ d hlen hne
  · rw [if_neg hT]
    exact softmax_some neighbors _ T d hlen hne hu0 hu1

theorem choose_new_policy_mem {neighbors : List (Agent × ℝ)} {T : ℝ} {d : AdaptDraws}
    {pol : Policy} (h : Agent.choose_new_policy neighbors T d = some pol) :
    ∃ nb ∈ neighbors, pol = nb.1.current_policy := by
  rw [Agent.choose_new_policy] at h
  by_cases hT : T < 1e-6
  · rw [if_pos hT] at h
    exact greedy_mem h
  · rw [if_neg hT] at h
    rw [Agent.softmax_policy_selection] at h
    exact softmaxCore_mem h

theorem adapt_strategy_retained (a : Agent) (neighbors : List (Agent × ℝ))
    (T rate : ℝ) (d : AdaptDraws) (hret : d.retention < rate) :
    a.adapt_strategy neighbors T rate d = some a := by
  rw [Agent.adapt_strategy]
  by_cases hne : neighbors.isEmpty
  · rw [if_pos hne]
  · rw [if_neg hne, if_pos hret]

theorem adapt_strategy_selected (a : Agent) (neighbors : List (Agent × ℝ))
    (T rate : ℝ) (d : AdaptDraws) (np : Policy) (hne : neighbors ≠ [])
    (hret : ¬ d.retention < rate)
    (hch : Agent.choose_new_policy neighbors T d = some np) :
    a.adapt_strategy neighbors T rate d = some
      { a with current_policy := np,
               performance_history :=
                 if a.current_policy.name = np.name then a.performance_history else [] } := by
  have hne' : ¬ neighbors.isEmpty = true := by simp [hne]
  rw [Agent.adapt_strategy, if_neg hne', if_neg hret, hch]
  show (if a.current_policy.name ≠ np.name then
      some { a with current_policy := np, performance_history := [] }
    else some { a with current_policy := np }) = _
  by_cases hnm : a.current_policy.name = np.name
  · rw [if_neg (fun hc : a.current_policy.name ≠ np.name => hc hnm), if_pos hnm]
  · rw [if_pos hnm, if_neg hnm]

theorem adapt_strategy_some (a : Agent) (neighbors : List (Agent × ℝ))
    (T rate : ℝ) (d : AdaptDraws) (hwf : DrawsWF d) :
    ∃ a', a.adapt_strategy neighbors T rate d = some a' := by
  by_cases hemp : neighbors = []
  · subst hemp
    exact ⟨a, by simp [Agent.adapt_strategy]⟩
  · by_cases hret : d.retention < rate
    · exact ⟨a, adapt_strategy_retained a neighbors T rate d hret⟩
    · obtain ⟨np, hnp⟩ := choose_new_policy_some neighbors T d hemp hwf
      exact ⟨_, adapt_strategy_selected a neighbors T rate d np hemp hret hnp⟩

theorem adapt_strategy_cases {a : Agent} {neighbors : List (Agent × ℝ)}
    {T rate : ℝ} {d : AdaptDraws} {a' : Agent}
    (h : a.adapt_strategy neighbors T rate d = some a') :
    a' = a ∨ ∃ np, Agent.choose_new_policy neighbors T d = some np ∧
      a'.current_policy = np := by
  rw [Agent.adapt_strategy] at h
  split_ifs at h with h1 h2
  · exact Or.inl (Option.some.inj h).symm
  · exact Or.inl (Option.some.inj h).symm
  · cases hc : Agent.choose_new_policy neighbors T d with
    | none =>
        rw [hc] at h
        exact absurd h (by simp)
    | some np =>
        rw [hc] at h
        have h' : (if a.current_policy.name ≠ np.name then
            some { a with current_policy := np, performance_history := [] }
          else some { a with current_policy := np }) = some a' := h
        split_ifs at h' with h3
        · refine Or.inr ⟨np, rfl, ?_⟩
          rw [← Option.some.inj h']
        · refine Or.inr ⟨np, rfl, ?_⟩
          rw [← Option.some.inj h']

/-! ## Claim theorems -/

/-- Claim C1: `Game::run` returns the attendance ratio — the count of agents
whose prediction is strictly below `0.6` divided by the total number of
agents, `0` when the grid is empty — and that ratio lies in `[0, 1]`. -/
theorem game_run_returns_attendance (n : ℕ) (s : GameState) :
    (gameRun n s).map Prod.snd = some (attendanceRatioSpec n s) ∧
    0 ≤ attendanceRatioSpec n s ∧ attendanceRatioSpec n s ≤ 1 := by
  have hnum : (((positions n).map fun p => predOf s p.1 p.2).filter
        fun x => decide (x < 0.6)).length
      = ((positions n).filter fun p =>
          decide ((s.grid p.1 p.2).current_policy.decide s.history < 0.6)).length := by
    rw [show ((positions n).map fun p => predOf s p.1 p.2).filter (fun x => decide (x < 0.6))
        = ((positions n).filter fun p =>
            decide ((s.grid p.1 p.2).current_policy.decide s.history < 0.6)).map
          (fun p => predOf s p.1 p.2) from List.filter_map _ _]
    rw [List.length_map]
  have hcount : ((positions n).filter fun p =>
      decide ((s.grid p.1 p.2).current_policy.decide s.history < 0.6)).length ≤ n * n :=
    le_trans (List.length_filter_le _ _) (le_of_eq (length_positions n))
  have hspec : attendanceRatioSpec n s = gameRatio n s := by
    rw [attendanceRatioSpec, gameRatio]
    by_cases h : n * n = 0
    · rw [if_pos h, if_neg (by omega)]
    · rw [if_neg h, if_pos (Nat.pos_of_ne_zero h), hnum]
  refine ⟨?_, ?_, ?_⟩
  · obtain ⟨g', hrun, -⟩ := gameRun_eq n s
    rw [hrun, hspec]
    rfl
  · rw [attendanceRatioSpec]
    by_cases h : n * n = 0
    · rw [if_pos h]
    · rw [if_neg h]
      positivity
  · rw [attendanceRatioSpec]
    by_cases h : n * n = 0
    · rw [if_pos h]; norm_num
    · rw [if_neg h]
      rw [div_le_one (by positivity)]
      exact_mod_cast hcount

/-- Claim C9: for every history, `GeneralizedMeanPolicy` with `r = 1` and
window `M` returns the same value as `MovingAveragePolicy` with window `M`,
and with `r = -1` on strictly positive history it returns the harmonic mean
of the window. -/
theorem generalized_mean_relations (M : ℕ) (history : List ℝ) :
    generalizedMeanDecide M 1 history = movingAverageDecide M history ∧
    ((∀ x ∈ history, 0 < x) →
      generalizedMeanDecide M (-1) history = harmonicMean (lastWindow M history)) := by
  have hdropeq : history.length - min history.length M = history.length - M := by omega
  constructor
  · by_cases hh : history = []
    · subst hh; simp [generalizedMeanDecide, movingAverageDecide]
    · have hne : history.isEmpty = false := by
        simp [List.isEmpty_iff, hh]
      by_cases hM : M = 0
      · subst hM
        simp [generalizedMeanDecide, movingAverageDecide, hne, List.drop_length]
      · have hlenpos : 0 < history.length := List.length_pos.mpr hh
        have hwne : (history.drop (history.length - M)).isEmpty = false := by
          have hlen : (history.drop (history.length - M)).length = min history.length M := by
            rw [List.length_drop]; omega
          have : history.drop (history.length - M) ≠ [] := by
            intro h0; rw [h0] at hlen; simp at hlen; omega
          simp [List.isEmpty_iff, this]
        simp only [generalizedMeanDecide, movingAverageDecide]
        rw [hdropeq, if_neg (by simp [hne]), if_neg (by simp [hwne]),
          if_neg (by simp [hne, hM]), if_neg (by simp [hwne])]
        have hmap : (history.drop (history.length - M)).map (fun b => b ^ (1 : ℝ))
            = history.drop (history.length - M) := by
          rw [List.map_congr_left fun a _ => Real.rpow_one a]; simp
        have hlen2 : (((history.drop (history.length - M)).length : ℕ) : ℝ)
            = ((min history.length M : ℕ) : ℝ) := by
          rw [List.length_drop]; norm_cast; omega
        rw [hmap, one_div_one, Real.rpow_one, ← hlen2]
  · intro _
    by_cases hh : history = []
    · subst hh; simp [generalizedMeanDecide, harmonicMean, lastWindow]
    · have hne : history.isEmpty = false := by
        simp [List.isEmpty_iff, hh]
      by_cases hM : M = 0
      · subst hM
        simp [generalizedMeanDecide, harmonicMean, lastWindow, hne, List.drop_length]
      · have hlenpos : 0 < history.length := List.length_pos.mpr hh
        have hlen : (history.drop (history.length - M)).length = min history.length M := by
          rw [List.length_drop]; omega
        have hwne : (history.drop (history.length - M)).isEmpty = false := by
          have : history.drop (history.length - M) ≠ [] := by
            intro h0; rw [h0] at hlen; simp at hlen; omega
          simp [List.isEmpty_iff, this]
        simp only [generalizedMeanDecide]
        rw [hdropeq, if_neg (by simp [hne]), if_neg (by simp [hwne])]
        have hmap : (history.drop (history.length - M)).map (fun b => b ^ (-1 : ℝ))
            = (history.drop (history.length - M)).map fun x => x⁻¹ :=
          List.map_congr_left fun a _ => rpow_negone a
        rw [hmap, show (1 : ℝ) / (-1) = (-1 : ℝ) by norm_num, rpow_negone, inv_div,
          harmonicMean, lastWindow, hdropeq, hlen]

/-- Claim C9 witness: the `r = -1` part instantiated on the strictly
positive history `[1]` with window `1`. -/
theorem generalized_mean_relations_w :
    (∀ x ∈ [(1 : ℝ)], 0 < x) ∧
    generalizedMeanDecide 1 (-1) [1] = harmonicMean (lastWindow 1 [1]) := by
  refine ⟨?_, (generalized_mean_relations 1 [1]).2 ?_⟩ <;> simp

/-- Claim C2 (code bug): a `UniformPolicy` constructed with `low = high =
0.5` passes the constructor assertion (`0 ≤ low ≤ high ≤ 1`), yet every call
to `decide` panics, because `rand::distributions::Uniform::new` requires
`low < high`. -/
theorem uniform_policy_equal_bounds_panics :
    UniformPolicyS.new (1 / 2) (1 / 2) = some ⟨1 / 2, 1 / 2⟩ ∧
    ∀ u : ℝ, uniformPolicyDecide ⟨1 / 2, 1 / 2⟩ u = none := by
  constructor
  · rw [UniformPolicyS.new, if_pos (by norm_num)]
  · intro u
    rw [uniformPolicyDecide, randUniformNew, if_neg (lt_irrefl _)]
    rfl

/-- Claim C8: `Agent::update_performance` without a recorded prediction is a
panic (`none`), and with a recorded prediction it appends exactly the
absolute error to the performance record. -/
theorem update_performance_contract (a : Agent) (r : ℝ) :
    (a.last_prediction = none → a.update_performance r = none) ∧
    (∀ p, a.last_prediction = some p →
      a.update_performance r =
        some { a with performance_history := a.performance_history ++ [|p - r|] }) := by
  constructor
  · intro h; rw [Agent.update_performance, h]
  · intro p h; rw [Agent.update_performance, h]

/-- Claim C8 witness: both branches at concrete agents. -/
theorem update_performance_contract_w :
    (Agent.update_performance ⟨AlwaysGo, [], none⟩ 0 = none) ∧
    (Agent.update_performance ⟨AlwaysGo, [], some 1⟩ 0 =
      some ⟨AlwaysGo, [|(1 : ℝ) - 0|], some 1⟩) :=
  ⟨(update_performance_contract ⟨AlwaysGo, [], none⟩ 0).1 rfl,
   (update_performance_contract ⟨AlwaysGo, [], some 1⟩ 0).2 1 rfl⟩

theorem choose_new_policy_single (x : Agent × ℝ) (d : AdaptDraws) :
    Agent.choose_new_policy [x] 0 d = some x.1.current_policy := by
  rw [Agent.choose_new_policy, if_pos (by norm_num : (0 : ℝ) < 1e-6)]
  show Agent.greedy_policy_selection [x] [x.2] d = some x.1.current_policy
  have hcond : decide (|([x.2] : List ℝ).getD 0 0 - x.2| < 1e-6) = true := by
    simp only [List.getD_cons_zero, sub_self, abs_zero, decide_eq_true_eq]
    norm_num
  have hstep : bestIndices [x.2]
      = List.filter (fun i => decide (|([x.2] : List ℝ).getD i 0 - x.2| < 1e-6)) [0] := rfl
  have hbi : bestIndices [x.2] = [0] := by
    rw [hstep, List.filter_cons, hcond]
    simp
  have hcm : chooseModel (bestIndices [x.2]) d.greedyIdx = some 0 := by
    rw [hbi, chooseModel]
    simp [Nat.mod_one]
  rw [Agent.greedy_policy_selection, hcm]
  rfl

/-- Claim C4 counterexample: an agent holding the record `[1]` adapts with
the retention branch not taken against a non-empty neighbor slice; the
selected policy bears the agent's own policy name, and the performance
record afterwards is still `[1]`, not `[]`. -/
theorem record_kept_on_same_name_reselection :
    cexNeighbors ≠ [] ∧ ¬ (someDraws.retention < (0 : ℝ)) ∧
    (cexAgent.adapt_strategy cexNeighbors 0 0 someDraws).map Agent.performance_history
      = some [1] ∧
    (cexAgent.adapt_strategy cexNeighbors 0 0 someDraws).map Agent.performance_history
      ≠ some [] := by
  have hretn : ¬ (someDraws.retention < (0 : ℝ)) := by norm_num [someDraws]
  have hch : Agent.choose_new_policy cexNeighbors 0 someDraws
      = some cexAgent.current_policy :=
    choose_new_policy_single (cexAgent, 0) someDraws
  have hadapt := adapt_strategy_selected cexAgent cexNeighbors 0 0 someDraws
    cexAgent.current_policy (by simp [cexNeighbors]) hretn hch
  rw [if_pos rfl] at hadapt
  refine ⟨by simp [cexNeighbors], hretn, ?_, ?_⟩
  · rw [hadapt]; rfl
  · rw [hadapt]
    simp [cexAgent]

/-- Claim C4 (corrected): after a non-empty neighbor slice and a retention
draw that does not fire, `Agent::adapt_strategy` installs the selected
policy and clears the performance record exactly when the selected policy's
name differs from the current policy's name; with an equal name the record
is left unchanged (not cleared). -/
theorem adapt_clears_record_iff_name_differs (a : Agent)
    (neighbors : List (Agent × ℝ)) (T rate : ℝ) (d : AdaptDraws) (np : Policy)
    (hne : neighbors ≠ []) (hret : ¬ d.retention < rate)
    (hch : Agent.choose_new_policy neighbors T d = some np) :
    a.adapt_strategy neighbors T rate d = some
      { a with current_policy := np,
               performance_history :=
                 if a.current_policy.name = np.name then a.performance_history
                 else [] } := by
  exact adapt_strategy_selected a neighbors T rate d np hne hret hch

/-- Claim C4 witness: the clearing branch at a concrete differently named
selection. -/
theorem adapt_clears_record_iff_name_differs_w :
    altNeighbors ≠ [] ∧ ¬ (someDraws.retention < (0 : ℝ)) ∧
    Agent.choose_new_policy altNeighbors 0 someDraws = some NeverGo ∧
    cexAgent.adapt_strategy altNeighbors 0 0 someDraws = some
      { cexAgent with current_policy := NeverGo,
                      performance_history :=
                        if cexAgent.current_policy.name = NeverGo.name then
                          cexAgent.performance_history
                        else [] } := by
  have hch : Agent.choose_new_policy altNeighbors 0 someDraws = some NeverGo :=
    choose_new_policy_single (Agent.new NeverGo, 0) someDraws
  have hretn : ¬ (someDraws.retention < (0 : ℝ)) := by norm_num [someDraws]
  exact ⟨by simp [altNeighbors], hretn, hch,
    adapt_clears_record_iff_name_differs cexAgent altNeighbors 0 0 someDraws NeverGo
      (by simp [altNeighbors]) hretn hch⟩

theorem adaptPass_eval (n nd : ℕ) (T rate : ℝ) (old : Grid)
    (draws : ℕ → ℕ → AdaptDraws) (hwf : ∀ i j, DrawsWF (draws i j))
    (L : List (ℕ × ℕ)) (hL : L.Nodup) :
    ∃ g', adaptPass n nd T rate old draws L = some g'
      ∧ ∀ i j, g' i j =
          if (i, j) ∈ L then adaptedCell n nd T rate old draws i j else old i j := by
  have hsome : ∀ q ∈ L,
      ((old q.1 q.2).adapt_strategy (neighborsOf n nd old q.1 q.2) T rate
        (draws q.1 q.2)).isSome := by
    intro q _
    obtain ⟨a', ha'⟩ := adapt_strategy_some (old q.1 q.2) _ T rate (draws q.1 q.2)
      (hwf q.1 q.2)
    rw [ha']; rfl
  obtain ⟨g', hfold, hval⟩ := optFoldl_updateAt_eval
    (fun q a => a.adapt_strategy (neighborsOf n nd old q.1 q.2) T rate (draws q.1 q.2))
    L hL old hsome
  refine ⟨g', ?_, ?_⟩
  · rw [adaptPass]; exact hfold
  · intro i j
    rw [hval i j]
    by_cases hmem : (i, j) ∈ L
    · rw [if_pos hmem, if_pos hmem]
      rfl
    · rw [if_neg hmem, if_neg hmem]

/-- Claim C3: under the rng contract, the adaptation pass over any
duplicate-free cell order equals the pointwise adaptation of each cell
against the pre-adaptation snapshot (each cell's outcome depends only on the
snapshot and its own draws), so processing the cells in any other order —
any permutation — produces the same grid. -/
theorem adaptation_pass_order_independent (n nd : ℕ) (T rate : ℝ) (old : Grid)
    (draws : ℕ → ℕ → AdaptDraws) (hwf : ∀ i j, DrawsWF (draws i j))
    (L1 L2 : List (ℕ × ℕ)) (hnd : L1.Nodup) (hperm : L2.Perm L1) :
    adaptPass n nd T rate old draws L2 = adaptPass n nd T rate old draws L1 ∧
    ∀ i j, (adaptPass n nd T rate old draws L1).map (fun g => g i j)
      = some (if (i, j) ∈ L1 then adaptedCell n nd T rate old draws i j else old i j) := by
  obtain ⟨g1, h1, hv1⟩ := adaptPass_eval n nd T rate old draws hwf L1 hnd
  obtain ⟨g2, h2, hv2⟩ := adaptPass_eval n nd T rate old draws hwf L2
    (hperm.nodup_iff.mpr hnd)
  constructor
  · rw [h1, h2]
    congr 1
    funext i j
    rw [hv1 i j, hv2 i j]
    by_cases hmem : (i, j) ∈ L1
    · rw [if_pos hmem, if_pos (hperm.mem_iff.mpr hmem)]
    · rw [if_neg hmem, if_neg (fun hc => hmem (hperm.mem_iff.mp hc))]
  · intro i j
    rw [h1, Option.map_some', hv1 i j]

/-- Claim C3 witness: a two-cell order and its reversal on a concrete
grid. -/
theorem adaptation_pass_order_independent_w :
    (∀ i j : ℕ, DrawsWF ((fun _ _ => someDraws) i j)) ∧
    ([((0 : ℕ), (0 : ℕ)), (0, 1)] : List (ℕ × ℕ)).Nodup ∧
    ([((0 : ℕ), (1 : ℕ)), (0, 0)] : List (ℕ × ℕ)).Perm [(0, 0), (0, 1)] ∧
    adaptPass 2 1 1 (1 / 2) (fun _ _ => cexAgent) (fun _ _ => someDraws)
        [(0, 1), (0, 0)]
      = adaptPass 2 1 1 (1 / 2) (fun _ _ => cexAgent) (fun _ _ => someDraws)
        [(0, 0), (0, 1)] := by
  have hwf : ∀ i j : ℕ, DrawsWF ((fun _ _ => someDraws) i j) := by
    intro i j
    refine ⟨?_, ?_, ?_, ?_⟩ <;> norm_num [someDraws]
  refine ⟨hwf, by decide, by decide, ?_⟩
  exact (adaptation_pass_order_independent 2 1 1 (1 / 2) (fun _ _ => cexAgent)
    (fun _ _ => someDraws) hwf [(0, 0), (0, 1)] [(0, 1), (0, 0)]
    (by decide) (by decide)).1

theorem adaptStrategies_eq_some {n nd : ℕ} {T rate : ℝ} {draws : ℕ → ℕ → AdaptDraws}
    {g g2 : Grid} (h : adaptStrategies n nd T rate draws g = some g2) :
    ∃ gp, adaptPass n nd T rate g draws (positions n) = some gp ∧ g2 = clearPass n gp := by
  rw [adaptStrategies] at h
  obtain ⟨gp, hgp, hmap⟩ := Option.map_eq_some'.mp h
  exact ⟨gp, hgp, hmap.symm⟩

theorem runIteration_eq_some {cfg : SimConfig} {draws : ℕ → ℕ → AdaptDraws}
    {s s' : GameState} {fr : Frame} (h : runIteration cfg draws s = some (s', fr)) :
    ∃ s1 g2, gameRunN cfg.grid_size cfg.rounds_per_update s = some s1 ∧
      adaptStrategies cfg.grid_size cfg.neighbor_distance cfg.temperature
        cfg.policy_retention_rate draws s1.grid = some g2 ∧
      s' = { grid := g2, history := s1.history } ∧
      frameOf cfg { grid := g2, history := s1.history } = some fr := by
  rw [runIteration] at h
  obtain ⟨s1, h1, h2⟩ := Option.bind_eq_some.mp h
  obtain ⟨g2, h3, h4⟩ := Option.bind_eq_some.mp h2
  obtain ⟨fr', h5, h6⟩ := Option.map_eq_some'.mp h4
  rw [Prod.mk.injEq] at h6
  refine ⟨s1, g2, h1, h3, h6.1.symm, ?_⟩
  rw [← h6.2]
  exact h5

theorem gameRun_policy {n : ℕ} {t t' : GameState} {r : ℝ}
    (h : gameRun n t = some (t', r)) :
    ∀ i j, (t'.grid i j).current_policy = (t.grid i j).current_policy := by
  obtain ⟨g', hg, hval⟩ := gameRun_eq n t
  rw [hg] at h
  have h2 := Option.some.inj h
  rw [Prod.mk.injEq] at h2
  intro i j
  rw [← h2.1]
  show (g' i j).current_policy = (t.grid i j).current_policy
  rw [hval i j]
  split_ifs with hij
  · rfl
  · rfl

theorem gameRun_record_length {n : ℕ} {t t' : GameState} {r : ℝ}
    (h : gameRun n t = some (t', r)) :
    ∀ i j, i < n → j < n → (t'.grid i j).performance_history.length
      = (t.grid i j).performance_history.length + 1 := by
  obtain ⟨g', hg, hval⟩ := gameRun_eq n t
  rw [hg] at h
  have h2 := Option.some.inj h
  rw [Prod.mk.injEq] at h2
  intro i j hi hj
  rw [← h2.1]
  show (g' i j).performance_history.length
    = (t.grid i j).performance_history.length + 1
  rw [hval i j, if_pos ⟨hi, hj⟩]
  simp

theorem gameRunN_policy {n : ℕ} : ∀ {k : ℕ} {t t' : GameState},
    gameRunN n k t = some t' →
    ∀ i j, (t'.grid i j).current_policy = (t.grid i j).current_policy := by
  intro k
  induction k with
  | zero =>
      intro t t' h i j
      rw [Option.some.inj h]
  | succ k ih =>
      intro t t' h i j
      rw [show gameRunN n (k + 1) t = (gameRun n t).bind fun sr => gameRunN n k sr.1
        from rfl] at h
      obtain ⟨sr, h1, h2⟩ := Option.bind_eq_some.mp h
      rw [ih h2 i j]
      exact gameRun_policy (by rw [h1] : gameRun n t = some (sr.1, sr.2)) i j

theorem gameRunN_record_length {n : ℕ} : ∀ {k : ℕ} {t t' : GameState},
    gameRunN n k t = some t' →
    ∀ i j, i < n → j < n → (t'.grid i j).performance_history.length
      = (t.grid i j).performance_history.length + k := by
  intro k
  induction k with
  | zero =>
      intro t t' h i j _ _
      rw [Option.some.inj h]
      omega
  | succ k ih =>
      intro t t' h i j hi hj
      rw [show gameRunN n (k + 1) t = (gameRun n t).bind fun sr => gameRunN n k sr.1
        from rfl] at h
      obtain ⟨sr, h1, h2⟩ := Option.bind_eq_some.mp h
      have hstep := gameRun_record_length
        (by rw [h1] : gameRun n t = some (sr.1, sr.2)) i j hi hj
      have hrest := ih h2 i j hi hj
      omega

theorem neighborsOf_mem {n nd : ℕ} {g : Grid} {i j : ℕ} {x : Agent × ℝ}
    (h : x ∈ neighborsOf n nd g i j) : ∃ a b, x.1 = g a b := by
  rw [neighborsOf] at h
  obtain ⟨ni, _, h2⟩ := List.mem_flatMap.mp h
  obtain ⟨nj, _, h3⟩ := List.mem_filterMap.mp h2
  split_ifs at h3 with hc
  refine ⟨ni.toNat, nj.toNat, ?_⟩
  rw [← Option.some.inj h3]

theorem adaptStrategies_policy_retained {n nd : ℕ} {T : ℝ}
    {draws : ℕ → ℕ → AdaptDraws} {g g2 : Grid}
    (hwf : ∀ i j, DrawsWF (draws i j))
    (h : adaptStrategies n nd T 1 draws g = some g2) :
    ∀ i j, (g2 i j).current_policy = (g i j).current_policy := by
  obtain ⟨gp, h5, h6⟩ := adaptStrategies_eq_some h
  obtain ⟨gp', h7, hval⟩ := adaptPass_eval n nd T 1 g draws hwf (positions n)
    (nodup_positions n)
  rw [h7] at h5
  have hgg : gp' = gp := Option.some.inj h5
  subst hgg
  intro i j
  have hgp' : gp' i j = g i j := by
    rw [hval i j]
    by_cases hmem : (i, j) ∈ positions n
    · obtain ⟨-, hret, -, -⟩ := hwf i j
      rw [if_pos hmem, adaptedCell,
        adapt_strategy_retained (g i j) _ T 1 (draws i j) hret]
      rfl
    · rw [if_neg hmem]
  rw [h6, clearPass_eval]
  split_ifs with hmem
  · rw [hgp']
    rfl
  · rw [hgp']

/-- Claim C5: immediately after each `Simulation::run_iteration` every
in-grid agent's performance record is empty; one `Game::run` appends exactly
one entry to every in-grid agent's record; and a batch of `k` rounds started
from empty records leaves every in-grid record at length exactly `k` (so the
next batch of `rounds_per_update` rounds leaves length `rounds_per_update`). -/
theorem records_reset_then_grow (cfg : SimConfig) (draws : ℕ → ℕ → AdaptDraws)
    (s s' : GameState) (fr : Frame) :
    (runIteration cfg draws s = some (s', fr) →
      ∀ i j, i < cfg.grid_size → j < cfg.grid_size →
        (s'.grid i j).performance_history = []) ∧
    (∀ t t' : GameState, ∀ r : ℝ, gameRun cfg.grid_size t = some (t', r) →
      ∀ i j, i < cfg.grid_size → j < cfg.grid_size →
        (t'.grid i j).performance_history.length
          = (t.grid i j).performance_history.length + 1) ∧
    (∀ k : ℕ, ∀ t t' : GameState,
      (∀ i j, i < cfg.grid_size → j < cfg.grid_size →
        (t.grid i j).performance_history = []) →
      gameRunN cfg.grid_size k t = some t' →
      ∀ i j, i < cfg.grid_size → j < cfg.grid_size →
        (t'.grid i j).performance_history.length = k) := by
  refine ⟨?_, ?_, ?_⟩
  · intro h i j hi hj
    obtain ⟨s1, g2, h1, h2, h3, h4⟩ := runIteration_eq_some h
    obtain ⟨gp, h5, h6⟩ := adaptStrategies_eq_some h2
    rw [h3]
    show (g2 i j).performance_history = []
    rw [h6, clearPass_eval, if_pos ((mem_positions cfg.grid_size (i, j)).mpr ⟨hi, hj⟩)]
    rfl
  · intro t t' r h i j hi hj
    exact gameRun_record_length h i j hi hj
  · intro k t t' hempty h i j hi hj
    have hlen := gameRunN_record_length h i j hi hj
    rw [hempty i j hi hj] at hlen
    simpa using hlen

/-- Claim C5 witness: one concrete iteration of the minimal configuration,
plus the zero-round batch at its initial state. -/
theorem records_reset_then_grow_w :
    runIteration cfg0 (fun _ _ => someDraws) state0
      = some ({ grid := state0.grid, history := [0] },
              { policy_ids := [], predictions := [], attendance := 0 }) ∧
    (∀ i j, i < cfg0.grid_size → j < cfg0.grid_size →
      ((({ grid := state0.grid, history := [0] } : GameState)).grid i j).performance_history
        = []) ∧
    gameRunN cfg0.grid_size 0 state0 = some state0 ∧
    (∀ i j, i < cfg0.grid_size → j < cfg0.grid_size →
      (state0.grid i j).performance_history.length = 0) := by
  have hrun : runIteration cfg0 (fun _ _ => someDraws) state0
      = some ({ grid := state0.grid, history := [0] },
              { policy_ids := [], predictions := [], attendance := 0 }) := rfl
  refine ⟨hrun, ?_, rfl, ?_⟩
  · exact (records_reset_then_grow cfg0 (fun _ _ => someDraws) state0
      { grid := state0.grid, history := [0] }
      { policy_ids := [], predictions := [], attendance := 0 }).1 hrun
  · exact (records_reset_then_grow cfg0 (fun _ _ => someDraws) state0
      { grid := state0.grid, history := [0] }
      { policy_ids := [], predictions := [], attendance := 0 }).2.2 0 state0 state0
      (fun _ _ _ _ => rfl) rfl

/-- Claim C6: with `policy_retention_rate = 1` every retention draw (which
the rng keeps in `[0,1)`) fires, so across any number of iterations no
agent's policy is ever replaced: the grid's policy assignment equals the
initial one. -/
theorem retention_one_never_replaces (cfg : SimConfig)
    (drawSeq : ℕ → ℕ → ℕ → AdaptDraws) (k : ℕ) (s s' : GameState)
    (hrate : cfg.policy_retention_rate = 1)
    (hwf : ∀ t i j, DrawsWF (drawSeq t i j))
    (hrun : runIterations cfg drawSeq k s = some s') :
    ∀ i j, (s'.grid i j).current_policy = (s.grid i j).current_policy := by
  induction k generalizing drawSeq s with
  | zero =>
      intro i j
      rw [← Option.some.inj hrun]
  | succ k ih =>
      rw [show runIterations cfg drawSeq (k + 1) s
        = (runIteration cfg (drawSeq 0) s).bind fun sf =>
            runIterations cfg (fun t => drawSeq (t + 1)) k sf.1 from rfl] at hrun
      obtain ⟨sf, h1, h2⟩ := Option.bind_eq_some.mp hrun
      obtain ⟨sf1, sf2⟩ := sf
      obtain ⟨s1, g2, hg, ha, hs', -⟩ := runIteration_eq_some h1
      intro i j
      have htail := ih (fun t => drawSeq (t + 1)) sf1
        (fun t a b => hwf (t + 1) a b) h2 i j
      rw [htail, hs']
      show (g2 i j).current_policy = (s.grid i j).current_policy
      rw [hrate] at ha
      rw [adaptStrategies_policy_retained (fun a b => hwf 0 a b) ha i j]
      exact gameRunN_policy hg i j

/-- Claim C6 witness: one iteration of the minimal configuration with
retention rate `1`. -/
theorem retention_one_never_replaces_w :
    cfg0.policy_retention_rate = 1 ∧
    (∀ t i j : ℕ, DrawsWF ((fun _ _ _ => someDraws) t i j)) ∧
    runIterations cfg0 (fun _ _ _ => someDraws) 1 state0
      = some { grid := state0.grid, history := [0] } ∧
    ∀ i j, ((({ grid := state0.grid, history := [0] } : GameState)).grid i j).current_policy
      = (state0.grid i j).current_policy := by
  have hwf : ∀ t i j : ℕ, DrawsWF ((fun _ _ _ => someDraws) t i j) := by
    intro t i j
    refine ⟨?_, ?_, ?_, ?_⟩ <;> norm_num [someDraws]
  have hrun : runIterations cfg0 (fun _ _ _ => someDraws) 1 state0
      = some { grid := state0.grid, history := [0] } := rfl
  exact ⟨rfl, hwf, hrun,
    retention_one_never_replaces cfg0 (fun _ _ _ => someDraws) 1 state0
      { grid := state0.grid, history := [0] } rfl hwf hrun⟩

theorem updateAt_pred (P : Agent → Prop) {g : Grid} {i0 j0 : ℕ} {v : Agent}
    (hg : ∀ i j, P (g i j)) (hv : P v) : ∀ i j, P (updateAt g i0 j0 v i j) := by
  intro i j
  rw [updateAt_eval]
  split_ifs
  · exact hv
  · exact hg i j

theorem basePolicyOf_mem (strategies : List Policy) (hnil : strategies ≠ []) :
    basePolicyOf strategies ∈ strategies := by
  have hlenpos : 0 < strategies.length := List.length_pos.mpr hnil
  rw [basePolicyOf]
  cases hf : strategies.find? fun p => p.name == "Never Go" with
  | some p =>
      rw [Option.getD_some]
      exact List.mem_of_find?_eq_some hf
  | none =>
      rw [Option.getD_none, List.getD_eq_getElem _ _ hlenpos]
      exact List.getElem_mem hlenpos

theorem otherPoliciesOf_getD_mem (strategies : List Policy) (k : ℕ)
    (hne : otherPoliciesOf strategies ≠ []) :
    (otherPoliciesOf strategies).getD (k % (otherPoliciesOf strategies).length) default
      ∈ strategies := by
  have hlenpos : 0 < (otherPoliciesOf strategies).length := List.length_pos.mpr hne
  rw [List.getD_eq_getElem _ _ (Nat.mod_lt k hlenpos)]
  exact List.mem_of_mem_filter (List.getElem_mem (Nat.mod_lt k hlenpos))

theorem cornersGrid_inv (strategies : List Policy) (gs : ℕ)
    (hnil : strategies ≠ []) :
    ∀ i j, ∃ p ∈ strategies, (cornersGrid strategies gs i j).current_policy.name = p.name := by
  have hbase := basePolicyOf_mem strategies hnil
  have hg0 : ∀ i j : ℕ,
      ∃ p ∈ strategies,
        ((fun (_ : ℕ) (_ : ℕ) => Agent.new (basePolicyOf strategies)) i j).current_policy.name
          = p.name :=
    fun _ _ => ⟨basePolicyOf strategies, hbase, rfl⟩
  intro i j
  rw [cornersGrid]
  by_cases ho : (otherPoliciesOf strategies).isEmpty = true
  · rw [if_pos ho]
    exact hg0 i j
  · have honil : otherPoliciesOf strategies ≠ [] := by
      intro hc
      exact ho (by rw [hc]; rfl)
    rw [if_neg ho]
    have hv : ∀ k : ℕ, ∃ p ∈ strategies,
        (Agent.new ((otherPoliciesOf strategies).getD
          (k % (otherPoliciesOf strategies).length) default)).current_policy.name
          = p.name :=
      fun k => ⟨_, otherPoliciesOf_getD_mem strategies k honil, rfl⟩
    by_cases hgs0 : 0 < gs
    · rw [if_pos hgs0]
      by_cases hgs1 : 1 < gs
      · rw [if_pos hgs1]
        have s1 := @updateAt_pred
          (fun a => ∃ p ∈ strategies, a.current_policy.name = p.name)
          (fun _ _ => Agent.new (basePolicyOf strategies)) 0 0 _ hg0 (hv 0)
        have s2 := @updateAt_pred
          (fun a => ∃ p ∈ strategies, a.current_policy.name = p.name)
          _ 0 (gs - 1) _ s1 (hv 1)
        have s3 := @updateAt_pred
          (fun a => ∃ p ∈ strategies, a.current_policy.name = p.name)
          _ (gs - 1) 0 _ s2 (hv 2)
        exact @updateAt_pred
          (fun a => ∃ p ∈ strategies, a.current_policy.name = p.name)
          _ (gs - 1) (gs - 1) _ s3 (hv 3) i j
      · rw [if_neg hgs1]
        exact updateAt_pred
          (fun a => ∃ p ∈ strategies, a.current_policy.name = p.name) hg0 (hv 0) i j
    · rw [if_neg hgs0]
      exact hg0 i j

theorem new_inv (cfg : SimConfig) (initDraws : ℕ → ℕ → ℕ) (s : GameState)
    (h : Simulation.new cfg initDraws = some s) : GridInv cfg s := by
  by_cases hemp : cfg.initial_strategies.isEmpty = true
  · exfalso
    rw [Simulation.new, if_pos hemp] at h
    exact absurd h (by simp)
  · have hnil : cfg.initial_strategies ≠ [] := by
      intro hc
      exact hemp (by rw [hc]; rfl)
    have hlenpos : 0 < cfg.initial_strategies.length := List.length_pos.mpr hnil
    by_cases hsr : cfg.start_random = true
    · rw [Simulation.new, if_neg hemp, if_pos hsr] at h
      have hs := Option.some.inj h
      intro i j
      rw [← hs]
      show policyFromConfigured cfg
        (Agent.new (cfg.initial_strategies.getD
          (initDraws i j % cfg.initial_strategies.length) default))
      have hk := Nat.mod_lt (initDraws i j) hlenpos
      rw [policyFromConfigured]
      refine ⟨cfg.initial_strategies.getD
        (initDraws i j % cfg.initial_strategies.length) default, ?_, rfl⟩
      rw [List.getD_eq_getElem _ _ hk]
      exact List.getElem_mem hk
    · rw [Simulation.new, if_neg hemp, if_neg hsr] at h
      have hs := Option.some.inj h
      intro i j
      rw [← hs]
      show policyFromConfigured cfg (cornersGrid cfg.initial_strategies cfg.grid_size i j)
      exact cornersGrid_inv cfg.initial_strategies cfg.grid_size hnil i j

theorem adaptStrategies_inv {cfg : SimConfig} {n nd : ℕ} {T rate : ℝ}
    {draws : ℕ → ℕ → AdaptDraws} {g g2 : Grid}
    (hwf : ∀ i j, DrawsWF (draws i j))
    (hinv : ∀ i j, policyFromConfigured cfg (g i j))
    (h : adaptStrategies n nd T rate draws g = some g2) :
    ∀ i j, policyFromConfigured cfg (g2 i j) := by
  obtain ⟨gp, h5, h6⟩ := adaptStrategies_eq_some h
  obtain ⟨gp', h7, hval⟩ := adaptPass_eval n nd T rate g draws hwf (positions n)
    (nodup_positions n)
  rw [h7] at h5
  have hgg : gp' = gp := Option.some.inj h5
  subst hgg
  intro i j
  have hcell : policyFromConfigured cfg (gp' i j) := by
    rw [hval i j]
    by_cases hmem : (i, j) ∈ positions n
    · rw [if_pos hmem]
      obtain ⟨a', ha'⟩ := adapt_strategy_some (g i j) (neighborsOf n nd g i j) T rate
        (draws i j) (hwf i j)
      rw [adaptedCell, ha', Option.getD_some]
      rcases adapt_strategy_cases ha' with hcase | ⟨np, hnp, hpol⟩
      · rw [hcase]
        exact hinv i j
      · obtain ⟨nb, hnbmem, hnbpol⟩ := choose_new_policy_mem hnp
        obtain ⟨a, b, hab⟩ := neighborsOf_mem hnbmem
        obtain ⟨p, hp, hname⟩ := hinv a b
        refine ⟨p, hp, ?_⟩
        rw [hpol, hnbpol, hab, hname]
    · rw [if_neg hmem]
      exact hinv i j
  rw [h6, clearPass_eval]
  split_ifs with hmem
  · obtain ⟨p, hp, hname⟩ := hcell
    exact ⟨p, hp, hname⟩
  · exact hcell

theorem gameRunN_inv {cfg : SimConfig} {n k : ℕ} {t t' : GameState}
    (h : gameRunN n k t = some t')
    (hinv : ∀ i j, policyFromConfigured cfg (t.grid i j)) :
    ∀ i j, policyFromConfigured cfg (t'.grid i j) := by
  intro i j
  obtain ⟨p, hp, hname⟩ := hinv i j
  exact ⟨p, hp, by rw [gameRunN_policy h i j, hname]⟩

theorem mapOpt_isSome {α β : Type} (f : α → Option β) :
    ∀ l : List α, (∀ a ∈ l, (f a).isSome) → (mapOpt f l).isSome := by
  intro l
  induction l with
  | nil => intro _; rfl
  | cons a t ih =>
      intro h
      obtain ⟨b, hb⟩ := Option.isSome_iff_exists.mp (h a (List.mem_cons_self a t))
      obtain ⟨bs, hbs⟩ := Option.isSome_iff_exists.mp
        (ih fun x hx => h x (List.mem_cons_of_mem a hx))
      rw [mapOpt, hb, hbs]
      rfl

theorem strategyId_isSome (strategies : List Policy) (nm : String)
    (h : ∃ p ∈ strategies, nm = p.name) : (strategyId strategies nm).isSome := by
  obtain ⟨p, hp, hnm⟩ := h
  obtain ⟨⟨k, hk⟩, hget⟩ := List.mem_iff_get.mp hp
  have henum : ((k, p) : ℕ × Policy) ∈ strategies.enum := by
    rw [List.mem_enum_iff_get?]
    show strategies.get? k = some p
    rw [List.get?_eq_get hk, hget]
  have hfind : (strategies.enum.reverse.find? fun ip => ip.2.name == nm).isSome := by
    rw [List.find?_isSome]
    refine ⟨(k, p), List.mem_reverse.mpr henum, ?_⟩
    show (p.name == nm) = true
    rw [beq_iff_eq, hnm]
  rw [strategyId]
  obtain ⟨x, hx⟩ := Option.isSome_iff_exists.mp hfind
  rw [hx]
  rfl

theorem frameOf_isSome (cfg : SimConfig) (s : GameState)
    (hinv : ∀ i j, policyFromConfigured cfg (s.grid i j)) :
    (frameOf cfg s).isSome := by
  have hall : ∀ q ∈ positions cfg.grid_size,
      (strategyId cfg.initial_strategies (s.grid q.1 q.2).current_policy.name).isSome := by
    intro q _
    obtain ⟨p, hp, hnm⟩ := hinv q.1 q.2
    exact strategyId_isSome _ _ ⟨p, hp, hnm⟩
  have h := mapOpt_isSome
    (fun p => strategyId cfg.initial_strategies (s.grid p.1 p.2).current_policy.name)
    (positions cfg.grid_size) hall
  rw [frameOf]
  obtain ⟨ids, hids⟩ := Option.isSome_iff_exists.mp h
  rw [hids]
  rfl

/-- Claim C10: in every reachable simulation state every cell's policy name
is one of the configured initial strategies' names — initialization assigns
only configured policies and adaptation only adopts a neighbor's existing
policy — so the strategy-map lookups that build the Frame's policy-id grid
in `run_iteration` all succeed and the Frame construction never panics. -/
theorem reachable_policies_configured (cfg : SimConfig) (s : GameState)
    (h : Reachable cfg s) : GridInv cfg s ∧ (frameOf cfg s).isSome := by
  have hinv : GridInv cfg s := by
    induction h with
    | init initDraws s0 hnew => exact new_inv cfg initDraws s0 hnew
    | step s0 s1 fr draws hwf hreach hstep ih =>
        obtain ⟨t1, g2, hg, ha, hs1, -⟩ := runIteration_eq_some hstep
        intro i j
        rw [hs1]
        show policyFromConfigured cfg (g2 i j)
        exact adaptStrategies_inv hwf (gameRunN_inv hg ih) ha i j
  exact ⟨hinv, frameOf_isSome cfg s hinv⟩

/-- Claim C10 witness: the initial state of the minimal configuration is
reachable and its frame builds. -/
theorem reachable_policies_configured_w :
    Reachable cfg0 state0 ∧ (frameOf cfg0 state0).isSome := by
  have hnew : Simulation.new cfg0 (fun _ _ => 0) = some state0 := rfl
  have hre : Reachable cfg0 state0 := Reachable.init (fun _ _ => 0) state0 hnew
  exact ⟨hre, (reachable_policies_configured cfg0 state0 hre).2⟩

/-- Claim C7: when the exponential weights cannot form a weighted index —
in particular when the normalizer (their sum) vanishes — the softmax
selection falls back to a uniform index draw over the non-empty neighbor
slice and still returns a policy (it neither panics nor stalls). -/
theorem softmax_vanishing_normalizer_fallback (neighbors : List (Agent × ℝ))
    (weights : List ℝ) (d : AdaptDraws) (hne : neighbors ≠ [])
    (hw : ∀ w ∈ weights, 0 ≤ w) (hsum : weights.sum = 0) :
    softmaxSelectionCore neighbors weights d =
      (neighbors.get? (d.uniformIdx % neighbors.length)).map
        (fun nb => nb.1.current_policy) ∧
    (softmaxSelectionCore neighbors weights d).isSome := by
  have hnv : ¬ weightedIndexValid weights := by
    intro h
    unfold weightedIndexValid at h
    rw [hsum] at h
    exact absurd h.2.2 (lt_irrefl 0)
  have hlen : ¬ neighbors.length = 0 := by
    simpa [List.length_eq_zero] using hne
  have heq : softmaxSelectionCore neighbors weights d =
      (neighbors.get? (d.uniformIdx % neighbors.length)).map
        (fun nb => nb.1.current_policy) := by
    rw [softmaxSelectionCore, if_neg hnv, if_neg hlen]
  refine ⟨heq, ?_⟩
  rw [heq, List.get?_eq_get (Nat.mod_lt _ (Nat.pos_of_ne_zero hlen))]
  rfl

/-- Claim C7 witness: one neighbor, weight list `[0]` (vanished
normalizer). -/
theorem softmax_vanishing_normalizer_fallback_w :
    cexNeighbors ≠ [] ∧ (∀ w ∈ [(0 : ℝ)], 0 ≤ w) ∧ ([(0 : ℝ)]).sum = 0 ∧
    (softmaxSelectionCore cexNeighbors [0] someDraws).isSome := by
  refine ⟨by simp [cexNeighbors], by simp, by simp, ?_⟩
  exact (softmax_vanishing_normalizer_fallback cexNeighbors [0] someDraws
    (by simp [cexNeighbors]) (by simp) (by simp)).2

end


